import Mathlib

/-!
# Verification of the crunchbase-scraper worker-pool core

Shallow embedding of the concurrent worker-pool scraping manager
(`src/modules/financial_scraper_module.js`), its execution unit
(`src/modules/financial_scraper_worker.js`) and the downstream JSONL
reader (`parseJsonl` in the merge module).  External effects (file
reads, browser actions, message delivery, append results) are supplied
by explicit scenario records; the definitions follow the JavaScript
control flow line by line, and the theorems settle the specification's
claims about chunking, retries, message traces, resource release and
final-status aggregation.
-/

set_option autoImplicit false

namespace CBScraper

/-- A work item, i.e. one entry of the companies array.  The code reads
the fields `"Organization Permalink"` and `"Organization Name"`, either
of which may be absent in the JSON object. -/
structure Item where
  permalink : Option String
  name : Option String
  deriving DecidableEq, Repr

/-- `companyInfo["Organization Name"] || 'Unknown Company'`
(financial_scraper_worker.js line 120). -/
def Item.displayName (it : Item) : String :=
  it.name.getD "Unknown Company"

/-! ## Work partitioner (financial_scraper_module.js lines 49–55)

`chunkSize = Math.ceil(totalCompanies / numberOfWorkers)` and then
`for (let i = 0; i < totalCompanies; i += chunkSize)
   companyChunks.push(companiesData.slice(i, i + chunkSize))`. -/

/-- `Math.ceil(total / n)` on naturals. -/
def chunkSizeFor (total n : Nat) : Nat :=
  (total + n - 1) / n

/-- Fuel-indexed slicing loop: while the remaining list is non-empty,
push `slice(i, i + k)` (i.e. `take k`) and advance by `k`.  The fuel is
an upper bound on the number of iterations; `fuel = length` suffices
whenever `k ≥ 1`, and for an empty input the loop body never runs. -/
def makeChunksAux {α : Type} : Nat → List α → Nat → List (List α)
  | 0, _, _ => []
  | _ + 1, [], _ => []
  | fuel + 1, c :: cs, k => (c :: cs).take k :: makeChunksAux fuel ((c :: cs).drop k) k

/-- The chunking loop of the manager: split `cs` into contiguous slices
of `k` elements (last slice possibly shorter).  For `cs = []` the loop
condition `i < 0` fails at once and no chunk is produced. -/
def makeChunks {α : Type} (cs : List α) (k : Nat) : List (List α) :=
  makeChunksAux cs.length cs k

/-- The chunk list the manager builds for `items` and `numberOfWorkers = n`. -/
def companyChunks {α : Type} (items : List α) (n : Nat) : List (List α) :=
  makeChunks items (chunkSizeFor items.length n)

/-- Launch loop (lines 62–66): for `i` in `[0, numberOfWorkers)` a worker
is launched iff `companyChunks[i]` exists and is non-empty. -/
def launchedIndices {α : Type} (items : List α) (n : Nat) : List Nat :=
  (List.range n).filter (fun i => !((companyChunks items n).getD i []).isEmpty)

/-! ### Partitioner lemmas -/

theorem makeChunksAux_join {α : Type} (k : Nat) (hk : 1 ≤ k) :
    ∀ (fuel : Nat) (cs : List α), cs.length ≤ fuel →
      (makeChunksAux fuel cs k).flatten = cs := by
  intro fuel
  induction fuel with
  | zero =>
    intro cs h
    have : cs = [] := List.eq_nil_of_length_eq_zero (Nat.le_zero.mp h)
    subst this; rfl
  | succ n ih =>
    intro cs h
    cases cs with
    | nil => rfl
    | cons c cs' =>
      have hdrop : ((c :: cs').drop k).length ≤ n := by
        rw [List.length_drop]
        simp only [List.length_cons] at h ⊢
        omega
      simp only [makeChunksAux, List.flatten_cons, ih _ hdrop]
      exact List.take_append_drop k (c :: cs')

theorem makeChunks_join {α : Type} (cs : List α) (k : Nat) (hk : 1 ≤ k) :
    (makeChunks cs k).flatten = cs :=
  makeChunksAux_join k hk cs.length cs (Nat.le_refl _)

theorem makeChunksAux_ne_nil {α : Type} (k : Nat) (hk : 1 ≤ k) :
    ∀ (fuel : Nat) (cs : List α) (c : List α),
      c ∈ makeChunksAux fuel cs k → c ≠ [] := by
  intro fuel
  induction fuel with
  | zero => intro cs c hc; simp [makeChunksAux] at hc
  | succ n ih =>
    intro cs c hc
    cases cs with
    | nil => simp [makeChunksAux] at hc
    | cons a cs' =>
      simp only [makeChunksAux, List.mem_cons] at hc
      rcases hc with rfl | hc
      · cases k with
        | zero => omega
        | succ m => simp
      · exact ih _ _ hc

theorem makeChunks_length_le {α : Type} (k : Nat) (hk : 1 ≤ k) :
    ∀ (fuel : Nat) (cs : List α) (n : Nat), cs.length ≤ fuel →
      cs.length ≤ n * k → (makeChunksAux fuel cs k).length ≤ n := by
  intro fuel
  induction fuel with
  | zero => intro cs n _ _; simp [makeChunksAux]
  | succ m ih =>
    intro cs n hfuel hbound
    cases cs with
    | nil => simp [makeChunksAux]
    | cons c cs' =>
      cases n with
      | zero =>
        exfalso
        simp only [List.length_cons, Nat.zero_mul, Nat.le_zero] at hbound
        omega
      | succ n' =>
        have hdroplen : ((c :: cs').drop k).length ≤ m := by
          rw [List.length_drop]
          simp only [List.length_cons] at hfuel ⊢
          omega
        have hdropbound : ((c :: cs').drop k).length ≤ n' * k := by
          rw [List.length_drop]
          have : (c :: cs').length ≤ (n' + 1) * k := hbound
          have h2 : (n' + 1) * k = n' * k + k := by ring
          omega
        simp only [makeChunksAux, List.length_cons]
        exact Nat.succ_le_succ (ih _ _ hdroplen hdropbound)

/-- For `total ≥ 0` and `n ≥ 1`, `n * ceil(total/n) ≥ total`. -/
theorem chunkSizeFor_mul_ge (total n : Nat) (hn : 1 ≤ n) :
    total ≤ n * chunkSizeFor total n := by
  unfold chunkSizeFor
  rcases Nat.eq_zero_or_pos total with h0 | hpos
  · subst h0; exact Nat.zero_le _
  · have hdm := Nat.div_add_mod (total + n - 1) n
    have hmod : (total + n - 1) % n < n := Nat.mod_lt _ (by omega)
    omega

theorem chunkSizeFor_pos (total n : Nat) (h : 1 ≤ total) (hn : 1 ≤ n) :
    1 ≤ chunkSizeFor total n := by
  unfold chunkSizeFor
  have hle : n ≤ total + n - 1 := by omega
  have := (Nat.one_le_div_iff hn).mpr hle
  omega

theorem range_filter_lt (n m : Nat) (h : m ≤ n) :
    (List.range n).filter (fun i => decide (i < m)) = List.range m := by
  induction n with
  | zero =>
    have : m = 0 := Nat.le_zero.mp h
    subst this; rfl
  | succ n' ih =>
    rw [List.range_succ, List.filter_append]
    rcases Nat.lt_or_ge m (n' + 1) with hm | hm
    · have hm' : m ≤ n' := by omega
      rw [ih hm']
      have hnm : ¬ (n' < m) := by omega
      have : (List.filter (fun i => decide (i < m)) [n']) = [] := by
        simp [List.filter, hnm]
      rw [this, List.append_nil]
    · have : m = n' + 1 := by omega
      subst this
      have h1 : (List.range n').filter (fun i => decide (i < n' + 1)) = List.range n' := by
        apply List.filter_eq_self.mpr
        intro a ha
        simp only [List.mem_range] at ha
        simp
        omega
      rw [h1]
      have h2 : (List.filter (fun i => decide (i < n' + 1)) [n']) = [n'] := by
        simp [List.filter]
      rw [h2, ← List.range_succ]

/-- The launch loop starts exactly one worker per chunk: since every
chunk is non-empty and there are at most `n` of them, the filter over
`[0, n)` keeps precisely the chunk indices. -/
theorem launchedIndices_length {α : Type} (items : List α) (n : Nat)
    (hne : ∀ c ∈ companyChunks items n, c ≠ [])
    (hlen : (companyChunks items n).length ≤ n) :
    (launchedIndices items n).length = (companyChunks items n).length := by
  unfold launchedIndices
  have hcongr : (List.range n).filter
      (fun i => !((companyChunks items n).getD i []).isEmpty) =
      (List.range n).filter (fun i => decide (i < (companyChunks items n).length)) := by
    apply List.filter_congr
    intro i _
    rcases Nat.lt_or_ge i (companyChunks items n).length with hi | hi
    · have hmem : (companyChunks items n).getD i [] ∈ companyChunks items n := by
        rw [List.getD_eq_getElem _ _ hi]
        exact List.getElem_mem hi
      have hne' := hne _ hmem
      simp only [decide_eq_true hi]
      rcases List.exists_cons_of_ne_nil hne' with ⟨a, t, heq⟩
      rw [heq]
      rfl
    · have : (companyChunks items n).getD i [] = [] :=
        List.getD_eq_default _ _ hi
      rw [this]
      simp
      omega
  rw [hcongr, range_filter_lt _ _ hlen, List.length_range]

/-! ## Option plumbing (module lines 20 and 68–76, worker lines 89–96)

The manager destructures `{ numberOfWorkers = 1, scraperPauseMs = 2000,
pageTimeoutMs = 60000 }` from its options object and places
`options: { scraperPauseMs, pageTimeoutMs }` into `workerData`.  The
worker destructures `{ scraperPauseMs = 2000, pageTimeoutMs = 60000,
maxRetriesPerCompany = 0, retryDelayMs = 3000 }` from that object. -/

/-- The loosely-typed options object handed to `scrapeFinancialDetails`;
any key may be absent. -/
structure PipelineOptions where
  numberOfWorkers : Option Nat
  scraperPauseMs : Option Nat
  pageTimeoutMs : Option Nat
  maxRetriesPerCompany : Option Nat
  retryDelayMs : Option Nat
  deriving DecidableEq, Repr

/-- The `options` object a worker receives inside `workerData`. -/
structure WorkerOptions where
  scraperPauseMs : Option Nat
  pageTimeoutMs : Option Nat
  maxRetriesPerCompany : Option Nat
  retryDelayMs : Option Nat
  deriving DecidableEq, Repr

/-- Module line 73: `options: { scraperPauseMs, pageTimeoutMs }` — the
manager forwards exactly these two options (its own defaults applied),
and no others. -/
def managerWorkerOptions (o : PipelineOptions) : WorkerOptions where
  scraperPauseMs := some (o.scraperPauseMs.getD 2000)
  pageTimeoutMs := some (o.pageTimeoutMs.getD 60000)
  maxRetriesPerCompany := none
  retryDelayMs := none

/-- The values the worker's loops actually use, after its own
destructuring defaults (worker lines 90–95). -/
structure EffectiveOptions where
  scraperPauseMs : Nat
  pageTimeoutMs : Nat
  maxRetriesPerCompany : Nat
  retryDelayMs : Nat
  deriving DecidableEq, Repr

/-- Worker lines 90–95: apply the worker-side defaults. -/
def workerEffectiveOptions (w : WorkerOptions) : EffectiveOptions where
  scraperPauseMs := w.scraperPauseMs.getD 2000
  pageTimeoutMs := w.pageTimeoutMs.getD 60000
  maxRetriesPerCompany := w.maxRetriesPerCompany.getD 0
  retryDelayMs := w.retryDelayMs.getD 3000

/-! ## Execution unit (financial_scraper_worker.js)

`P` is the type of one extracted funding-round row; the worker never
inspects rows, it only tags and forwards them. -/

/-- One output row as sent in a `data` message: the extracted round
tagged with the item's permalink and (undefaulted) name, mirroring the
spread `{ "Organization Permalink": permalink, "Organization Name":
companyName, ...round }` in `scrapeCompanyFinancials`. -/
structure TaggedRound (P : Type) where
  orgPermalink : Option String
  orgName : Option String
  round : P
  deriving DecidableEq, Repr

/-- Tag a list of extracted rows with their item's identity. -/
def tagRounds {P : Type} (it : Item) (rs : List P) : List (TaggedRound P) :=
  rs.map (fun r => ⟨it.permalink, it.name, r⟩)

/-- A message posted through `parentPort.postMessage`. -/
inductive WMsg (P : Type) where
  | data (payload : List (TaggedRound P))
  | error (permalink : Option String) (name : Option String) (reason : String)
  | done
  deriving DecidableEq, Repr

/-- Observable worker events, in program order: browser/page lifecycle,
delays and posted messages. -/
inductive WEvent (P : Type) where
  | browserLaunched
  | pageOpened
  | pageClosed
  | waitedRetry (ms : Nat)
  | waitedPause (ms : Nat)
  | sent (m : WMsg P)
  | browserClosed
  deriving DecidableEq, Repr

/-- Result of one processing attempt for one item, as decided by the
environment (browser, network, remote page):
`ok rs` — the whole `try` body succeeds and extraction yields rows `rs`;
`fail r` — the page was created but a later await threw with message `r`
(navigation, selector timeout, extraction);
`noPage r` — `browser.newPage()` itself threw, so no page exists. -/
inductive ARes (P : Type) where
  | ok (rounds : List P)
  | fail (reason : String)
  | noPage (reason : String)
  deriving DecidableEq, Repr

/-- Whether an attempt result is a success. -/
def ARes.isOk {P : Type} : ARes P → Bool
  | .ok _ => true
  | _ => false

/-- The failure reason of an attempt result (`none` on success). -/
def ARes.reason {P : Type} : ARes P → Option String
  | .ok _ => none
  | .fail r => some r
  | .noPage r => some r

/-- The `error` message posted at retry exhaustion (worker line 160). -/
def mkExhaustError {P : Type} (it : Item) (r : String) : WMsg P :=
  .error it.permalink (some it.displayName) ("Max retries reached: " ++ r)

/-- The events of one attempt of the retry loop (worker lines 127–168).
`last` is true when `attempt = maxRetriesPerCompany`.
On success the page is closed by the `finally`; on `fail`, the `catch`
closes the page first and then either waits `retryDelayMs` or posts the
final `error`; on `noPage` there is no page to close. -/
def attemptEvents {P : Type} (it : Item) (a : ARes P) (last : Bool) (d : Nat) :
    List (WEvent P) :=
  match a with
  | .ok rs =>
      .pageOpened ::
        (if rs.isEmpty then [] else [.sent (.data (tagRounds it rs))]) ++
        [.pageClosed]
  | .fail r =>
      [.pageOpened, .pageClosed] ++
        (if last then [.sent (mkExhaustError it r)] else [.waitedRetry d])
  | .noPage r =>
      if last then [.sent (mkExhaustError it r)] else [.waitedRetry d]

/-- The retry loop from attempt `k` with `rem` further attempts allowed
(so the last attempt is `k + rem`).  Returns the events, whether the
item finally succeeded, and how many attempts were performed. -/
def retryGo {P : Type} (it : Item) (att : Nat → ARes P) (d : Nat) :
    Nat → Nat → List (WEvent P) × Bool × Nat
  | k, 0 =>
      match att k with
      | .ok rs => (attemptEvents it (.ok rs) true d, true, 1)
      | a => (attemptEvents it a true d, false, 1)
  | k, rem + 1 =>
      match att k with
      | .ok rs => (attemptEvents it (.ok rs) false d, true, 1)
      | a =>
          let rest := retryGo it att d (k + 1) rem
          (attemptEvents it a false d ++ rest.1, rest.2.1, rest.2.2 + 1)

/-- Process one item: the retry loop for attempts `0 .. maxRetries`
(worker line 127: `for (attempt = 0; attempt <= maxRetriesPerCompany;
attempt++)`). -/
def processItem {P : Type} (it : Item) (att : Nat → ARes P) (maxRetries d : Nat) :
    List (WEvent P) × Bool × Nat :=
  retryGo it att d 0 maxRetries

/-- First attempt index (≤ `maxRetries`) at which the item succeeds,
with its rows, searched from attempt `k` with `rem` retries left. -/
def firstOkFrom {P : Type} (att : Nat → ARes P) : Nat → Nat → Option (List P)
  | k, 0 =>
      match att k with
      | .ok rs => some rs
      | _ => none
  | k, rem + 1 =>
      match att k with
      | .ok rs => some rs
      | _ => firstOkFrom att (k + 1) rem

/-- The rows of the first successful attempt among `0 .. maxRetries`,
or `none` when every attempt fails. -/
def firstOk {P : Type} (att : Nat → ARes P) (maxRetries : Nat) : Option (List P) :=
  firstOkFrom att 0 maxRetries

/-- The environment of one worker run: the cookie file's content, the
browser-launch outcome, the outcome of every (item, attempt) pair, and
a possible fault thrown during the pause after item `i` (the only await
of the outer `try` outside the per-attempt `try`). -/
structure WScenario (P : Type) where
  cookies : Except String (List String)
  browserLaunch : Except String Unit
  att : Nat → Nat → ARes P
  pauseFault : Nat → Option String

/-- The chunk loop (worker lines 118–176): items strictly in order;
after every item but the last the worker pauses; a fault during that
pause aborts the loop and is rethrown to the outer `catch`. -/
def processChunk {P : Type} (sc : WScenario P) (maxRetries d pauseMs : Nat) :
    List Item → Nat → List (WEvent P) × Option String
  | [], _ => ([], none)
  | it :: rest, i =>
      let es := (processItem it (sc.att i) maxRetries d).1
      match rest with
      | [] => (es, none)
      | _ :: _ =>
          match sc.pauseFault i with
          | some e => (es, some e)
          | none =>
              let r := processChunk sc maxRetries d pauseMs rest (i + 1)
              (es ++ .waitedPause pauseMs :: r.1, r.2)

/-- `runWorker` (worker lines 87–191): cookie loading (early `return`
on failure, before the browser `try`), browser launch, the chunk loop,
the outer `catch` posting a critical `error`, and the `finally` that
closes the browser (when one was launched) and posts `done`. -/
def runWorker {P : Type} (sc : WScenario P) (items : List Item)
    (maxRetries d pauseMs : Nat) : List (WEvent P) :=
  match sc.cookies with
  | .error e => [.sent (.error none none ("Failed to load cookies: " ++ e))]
  | .ok _ =>
      match sc.browserLaunch with
      | .error e =>
          [.sent (.error none none ("Critical worker error: " ++ e)), .sent .done]
      | .ok _ =>
          let r := processChunk sc maxRetries d pauseMs items 0
          .browserLaunched ::
            r.1 ++
            (match r.2 with
             | some e =>
                 [.sent (.error none none ("Critical worker error: " ++ e)),
                  .browserClosed, .sent .done]
             | none => [.browserClosed, .sent .done])

/-- The messages posted during a list of events, in order. -/
def sentMsgs {P : Type} (es : List (WEvent P)) : List (WMsg P) :=
  es.filterMap (fun e =>
    match e with
    | .sent m => some m
    | _ => none)

/-- The `error` messages among a list of events, in order. -/
def errorMsgs {P : Type} (es : List (WEvent P)) : List (WMsg P) :=
  (sentMsgs es).filter (fun m =>
    match m with
    | .error _ _ _ => true
    | _ => false)

/-- The payloads of the `data` messages among a list of events, in order. -/
def dataPayloads {P : Type} (es : List (WEvent P)) : List (List (TaggedRound P)) :=
  es.filterMap (fun e =>
    match e with
    | .sent (.data p) => some p
    | _ => none)

/-- The item identifier carried by each `data` message, in order: every
row of a payload is tagged with the same permalink, so the first row's
tag identifies the message's item. -/
def reportedIds {P : Type} (es : List (WEvent P)) : List (Option String) :=
  es.filterMap (fun e =>
    match e with
    | .sent (.data (r :: _)) => some r.orgPermalink
    | _ => none)

/-! ### Trace-observation lemmas -/

theorem sentMsgs_append {P : Type} (xs ys : List (WEvent P)) :
    sentMsgs (xs ++ ys) = sentMsgs xs ++ sentMsgs ys :=
  List.filterMap_append xs ys _

theorem errorMsgs_append {P : Type} (xs ys : List (WEvent P)) :
    errorMsgs (xs ++ ys) = errorMsgs xs ++ errorMsgs ys := by
  unfold errorMsgs
  rw [sentMsgs_append, List.filter_append]

theorem dataPayloads_append {P : Type} (xs ys : List (WEvent P)) :
    dataPayloads (xs ++ ys) = dataPayloads xs ++ dataPayloads ys :=
  List.filterMap_append xs ys _

theorem reportedIds_append {P : Type} (xs ys : List (WEvent P)) :
    reportedIds (xs ++ ys) = reportedIds xs ++ reportedIds ys :=
  List.filterMap_append xs ys _

/-- A non-final failing attempt posts no message at all. -/
theorem errorMsgs_attemptEvents_notLast {P : Type} (it : Item) (a : ARes P)
    (d : Nat) (ha : a.isOk = false) :
    errorMsgs (attemptEvents it a false d) = [] := by
  cases a with
  | ok rs => simp [ARes.isOk] at ha
  | fail r => rfl
  | noPage r => rfl

/-- A final failing attempt posts exactly the exhaustion `error`. -/
theorem errorMsgs_attemptEvents_last {P : Type} (it : Item) (a : ARes P)
    (d : Nat) (ha : a.isOk = false) :
    errorMsgs (attemptEvents it a true d) = [mkExhaustError it (a.reason.getD "")] := by
  cases a with
  | ok rs => simp [ARes.isOk] at ha
  | fail r => rfl
  | noPage r => rfl

/-- If every attempt from `k` through `k + rem` fails, the retry loop
performs all `rem + 1` attempts, ends unsuccessfully, and posts exactly
one `error` message, carrying the last attempt's failure reason. -/
theorem retryGo_all_fail {P : Type} (it : Item) (att : Nat → ARes P) (d : Nat) :
    ∀ (rem k : Nat), (∀ j, k ≤ j → j ≤ k + rem → (att j).isOk = false) →
      (retryGo it att d k rem).2.1 = false
    ∧ (retryGo it att d k rem).2.2 = rem + 1
    ∧ errorMsgs (retryGo it att d k rem).1 =
        [mkExhaustError it (((att (k + rem)).reason).getD "")] := by
  intro rem
  induction rem with
  | zero =>
    intro k h
    have hk := h k (Nat.le_refl _) (Nat.le_refl _)
    cases ha : att k with
    | ok rs => rw [ha] at hk; simp [ARes.isOk] at hk
    | fail r =>
      refine ⟨?_, ?_, ?_⟩ <;>
        simp [retryGo, ha, errorMsgs_attemptEvents_last, ARes.isOk, ARes.reason]
    | noPage r =>
      refine ⟨?_, ?_, ?_⟩ <;>
        simp [retryGo, ha, errorMsgs_attemptEvents_last, ARes.isOk, ARes.reason]
  | succ rem' ih =>
    intro k h
    have hk := h k (Nat.le_refl _) (by omega)
    have hnext : ∀ j, k + 1 ≤ j → j ≤ (k + 1) + rem' → (att j).isOk = false := by
      intro j h1 h2
      exact h j (by omega) (by omega)
    have hrec := ih (k + 1) hnext
    have harith : (k + 1) + rem' = k + (rem' + 1) := by omega
    cases ha : att k with
    | ok rs => rw [ha] at hk; simp [ARes.isOk] at hk
    | fail r =>
      refine ⟨?_, ?_, ?_⟩
      · simp only [retryGo, ha]
        exact hrec.1
      · simp only [retryGo, ha]
        rw [hrec.2.1]
      · simp only [retryGo, ha]
        rw [errorMsgs_append,
          errorMsgs_attemptEvents_notLast it (.fail r) d (by rfl)]
        rw [List.nil_append, hrec.2.2, harith]
    | noPage r =>
      refine ⟨?_, ?_, ?_⟩
      · simp only [retryGo, ha]
        exact hrec.1
      · simp only [retryGo, ha]
        rw [hrec.2.1]
      · simp only [retryGo, ha]
        rw [errorMsgs_append,
          errorMsgs_attemptEvents_notLast it (.noPage r) d (by rfl)]
        rw [List.nil_append, hrec.2.2, harith]

/-! ## Claim C2: retry exhaustion -/

/-- **C2.** For every item that fails on every attempt, the execution
unit performs exactly `R + 1` processing attempts (`R` being its
max-retries value), emits exactly one `error` message whose reason
carries the last attempt's failure, and then continues with the next
item of its chunk rather than aborting the chunk. -/
theorem retry_exhaustion_one_error_then_continue {P : Type}
    (sc : WScenario P) (it : Item) (rest : List Item)
    (i R d pauseMs : Nat) (r : String)
    (hfail : ∀ k, k ≤ R → ((sc.att i) k).isOk = false)
    (hlast : ((sc.att i) R).reason = some r)
    (hpause : sc.pauseFault i = none) :
    (processItem it (sc.att i) R d).2.2 = R + 1
  ∧ (processItem it (sc.att i) R d).2.1 = false
  ∧ errorMsgs (processItem it (sc.att i) R d).1 = [mkExhaustError it r]
  ∧ (rest ≠ [] →
      processChunk sc R d pauseMs (it :: rest) i =
        ((processItem it (sc.att i) R d).1 ++
           .waitedPause pauseMs :: (processChunk sc R d pauseMs rest (i + 1)).1,
         (processChunk sc R d pauseMs rest (i + 1)).2)) := by
  have h' : ∀ j, 0 ≤ j → j ≤ 0 + R → ((sc.att i) j).isOk = false := by
    intro j _ hj
    exact hfail j (by omega)
  have hmain := retryGo_all_fail it (sc.att i) d R 0 h'
  refine ⟨hmain.2.1, hmain.1, ?_, ?_⟩
  · have := hmain.2.2
    rw [Nat.zero_add, hlast] at this
    exact this
  · intro hne
    cases rest with
    | nil => exact absurd rfl hne
    | cons x xs =>
      simp only [processChunk, hpause]

/-- A concrete scenario in which every attempt of every item fails with
the same navigation timeout. -/
def wscAllFail : WScenario Nat where
  cookies := .ok []
  browserLaunch := .ok ()
  att := fun _ _ => .fail "navigation timeout"
  pauseFault := fun _ => none

theorem retry_exhaustion_one_error_then_continue_witness :
    (processItem ⟨some "acme", some "Acme"⟩ (wscAllFail.att 0) 2 7).2.2 = 2 + 1
  ∧ (processItem ⟨some "acme", some "Acme"⟩ (wscAllFail.att 0) 2 7).2.1 = false
  ∧ errorMsgs (processItem ⟨some "acme", some "Acme"⟩ (wscAllFail.att 0) 2 7).1 =
      [mkExhaustError ⟨some "acme", some "Acme"⟩ "navigation timeout"]
  ∧ (([⟨some "beta", none⟩] : List Item) ≠ [] →
      processChunk wscAllFail 2 7 5
          [⟨some "acme", some "Acme"⟩, ⟨some "beta", none⟩] 0 =
        ((processItem ⟨some "acme", some "Acme"⟩ (wscAllFail.att 0) 2 7).1 ++
           .waitedPause 5 ::
             (processChunk wscAllFail 2 7 5 [⟨some "beta", none⟩] 1).1,
         (processChunk wscAllFail 2 7 5 [⟨some "beta", none⟩] 1).2)) :=
  retry_exhaustion_one_error_then_continue wscAllFail
    ⟨some "acme", some "Acme"⟩ [⟨some "beta", none⟩] 0 2 7 5
    "navigation timeout" (fun _ _ => rfl) rfl rfl

/-! ### Success characterization of the retry loop -/

theorem dataPayloads_attemptEvents_ok {P : Type} (it : Item) (rs : List P)
    (last : Bool) (d : Nat) :
    dataPayloads (attemptEvents it (.ok rs) last d) =
      (if rs.isEmpty then [] else [tagRounds it rs]) := by
  cases rs <;> rfl

theorem reportedIds_attemptEvents_ok {P : Type} (it : Item) (rs : List P)
    (last : Bool) (d : Nat) :
    reportedIds (attemptEvents it (.ok rs) last d) =
      (if rs.isEmpty then [] else [it.permalink]) := by
  cases rs <;> rfl

theorem dataPayloads_attemptEvents_bad {P : Type} (it : Item) (a : ARes P)
    (last : Bool) (d : Nat) (ha : a.isOk = false) :
    dataPayloads (attemptEvents it a last d) = [] := by
  cases a with
  | ok rs => simp [ARes.isOk] at ha
  | fail r => cases last <;> rfl
  | noPage r => cases last <;> rfl

theorem reportedIds_attemptEvents_bad {P : Type} (it : Item) (a : ARes P)
    (last : Bool) (d : Nat) (ha : a.isOk = false) :
    reportedIds (attemptEvents it a last d) = [] := by
  cases a with
  | ok rs => simp [ARes.isOk] at ha
  | fail r => cases last <;> rfl
  | noPage r => cases last <;> rfl

/-- The retry loop succeeds exactly when some attempt in its window
succeeds; it posts one `data` message (the first success's non-empty
tagged rows) or none (empty rows or no success). -/
theorem retryGo_firstOk {P : Type} (it : Item) (att : Nat → ARes P) (d : Nat) :
    ∀ (rem k : Nat),
      (retryGo it att d k rem).2.1 = (firstOkFrom att k rem).isSome
    ∧ dataPayloads (retryGo it att d k rem).1 =
        (match firstOkFrom att k rem with
         | some rs => if rs.isEmpty then [] else [tagRounds it rs]
         | none => [])
    ∧ reportedIds (retryGo it att d k rem).1 =
        (match firstOkFrom att k rem with
         | some rs => if rs.isEmpty then [] else [it.permalink]
         | none => []) := by
  intro rem
  induction rem with
  | zero =>
    intro k
    cases ha : att k with
    | ok rs =>
      refine ⟨?_, ?_, ?_⟩ <;>
        simp [retryGo, firstOkFrom, ha, dataPayloads_attemptEvents_ok,
          reportedIds_attemptEvents_ok]
    | fail r =>
      refine ⟨?_, ?_, ?_⟩ <;>
        simp [retryGo, firstOkFrom, ha,
          dataPayloads_attemptEvents_bad it (.fail r) true d rfl,
          reportedIds_attemptEvents_bad it (.fail r) true d rfl]
    | noPage r =>
      refine ⟨?_, ?_, ?_⟩ <;>
        simp [retryGo, firstOkFrom, ha,
          dataPayloads_attemptEvents_bad it (.noPage r) true d rfl,
          reportedIds_attemptEvents_bad it (.noPage r) true d rfl]
  | succ rem' ih =>
    intro k
    cases ha : att k with
    | ok rs =>
      refine ⟨?_, ?_, ?_⟩ <;>
        simp [retryGo, firstOkFrom, ha, dataPayloads_attemptEvents_ok,
          reportedIds_attemptEvents_ok]
    | fail r =>
      have hrec := ih (k + 1)
      refine ⟨?_, ?_, ?_⟩
      · simp only [retryGo, firstOkFrom, ha]
        exact hrec.1
      · simp only [retryGo, firstOkFrom, ha]
        rw [dataPayloads_append,
          dataPayloads_attemptEvents_bad it (.fail r) false d rfl,
          List.nil_append]
        exact hrec.2.1
      · simp only [retryGo, firstOkFrom, ha]
        rw [reportedIds_append,
          reportedIds_attemptEvents_bad it (.fail r) false d rfl,
          List.nil_append]
        exact hrec.2.2
    | noPage r =>
      have hrec := ih (k + 1)
      refine ⟨?_, ?_, ?_⟩
      · simp only [retryGo, firstOkFrom, ha]
        exact hrec.1
      · simp only [retryGo, firstOkFrom, ha]
        rw [dataPayloads_append,
          dataPayloads_attemptEvents_bad it (.noPage r) false d rfl,
          List.nil_append]
        exact hrec.2.1
      · simp only [retryGo, firstOkFrom, ha]
        rw [reportedIds_append,
          reportedIds_attemptEvents_bad it (.noPage r) false d rfl,
          List.nil_append]
        exact hrec.2.2

/-! ## Claim C3: retry options never reach the worker -/

/-- **C3 (refuted — `code_bug`).** The spec (and the repository's own
workflow log) say the manager passes all four per-run options to each
worker, so a configured max-retries `R` and retry delay `D` drive the
worker's retry loop.  In fact module line 73 forwards only
`{ scraperPauseMs, pageTimeoutMs }`, so the worker's destructuring
defaults always win: with `maxRetriesPerCompany = 2` and
`retryDelayMs = 500` configured, the loop still runs with `0` retries
and a `3000` ms delay — and so for every configuration whatsoever. -/
theorem configured_retries_never_reach_worker :
    (workerEffectiveOptions (managerWorkerOptions
      { numberOfWorkers := some 5, scraperPauseMs := some 1000,
        pageTimeoutMs := some 30000, maxRetriesPerCompany := some 2,
        retryDelayMs := some 500 })).maxRetriesPerCompany = 0
  ∧ (workerEffectiveOptions (managerWorkerOptions
      { numberOfWorkers := some 5, scraperPauseMs := some 1000,
        pageTimeoutMs := some 30000, maxRetriesPerCompany := some 2,
        retryDelayMs := some 500 })).retryDelayMs = 3000
  ∧ (0 : Nat) ≠ 2 ∧ (3000 : Nat) ≠ 500
  ∧ ∀ o : PipelineOptions,
      (workerEffectiveOptions (managerWorkerOptions o)).maxRetriesPerCompany = 0
    ∧ (workerEffectiveOptions (managerWorkerOptions o)).retryDelayMs = 3000 :=
  ⟨rfl, rfl, by decide, by decide, fun _ => ⟨rfl, rfl⟩⟩

/-! ## Claim C4: chunking partitions the input -/

/-- **C4.** For every item list and worker count `n ≥ 1`: the chunks
concatenate, in order, to the input exactly; there are at most `n` of
them; each is non-empty; an empty input yields zero chunks; and the
launch loop starts exactly one worker per non-empty chunk. -/
theorem chunks_partition_and_one_worker_per_chunk {α : Type}
    (items : List α) (n : Nat) (hn : 1 ≤ n) :
    (companyChunks items n).flatten = items
  ∧ (companyChunks items n).length ≤ n
  ∧ (∀ c ∈ companyChunks items n, c ≠ [])
  ∧ (items = [] → companyChunks items n = [])
  ∧ (launchedIndices items n).length = (companyChunks items n).length := by
  cases items with
  | nil =>
    refine ⟨rfl, by simp [companyChunks, makeChunks, makeChunksAux], ?_, fun _ => rfl, ?_⟩
    · intro c hc
      simp [companyChunks, makeChunks, makeChunksAux] at hc
    · simp [launchedIndices, companyChunks, makeChunks, makeChunksAux]
  | cons a rest =>
    have hk : 1 ≤ chunkSizeFor (a :: rest).length n :=
      chunkSizeFor_pos _ n (by simp) hn
    have hne : ∀ c ∈ companyChunks (a :: rest) n, c ≠ [] := by
      intro c hc
      exact makeChunksAux_ne_nil _ hk _ _ c hc
    have hlen : (companyChunks (a :: rest) n).length ≤ n :=
      makeChunks_length_le _ hk _ _ n (Nat.le_refl _)
        (chunkSizeFor_mul_ge (a :: rest).length n hn)
    refine ⟨makeChunks_join _ _ hk, hlen, hne, ?_,
      launchedIndices_length _ n hne hlen⟩
    intro h
    exact absurd h (List.cons_ne_nil a rest)

theorem chunks_partition_and_one_worker_per_chunk_witness :
    ((companyChunks ["a", "b"] 5).flatten = ["a", "b"]
  ∧ (companyChunks ["a", "b"] 5).length ≤ 5
  ∧ (∀ c ∈ companyChunks ["a", "b"] 5, c ≠ [])
  ∧ ((["a", "b"] : List String) = [] → companyChunks ["a", "b"] 5 = [])
  ∧ (launchedIndices ["a", "b"] 5).length = (companyChunks ["a", "b"] 5).length)
  ∧ (launchedIndices ["a", "b"] 5).length = 2 :=
  ⟨chunks_partition_and_one_worker_per_chunk ["a", "b"] 5 (by decide), by decide⟩

/-! ## Claims C5 and C6: success reporting -/

/-- The identifier sequence the specification claims a unit reports:
the chunk order restricted to the items whose processing succeeded
(at some attempt `≤ R`), regardless of the payload.  This definition
follows the spec's words, to be compared with `reportedIds` of the
code's trace. -/
def claimedIds {P : Type} (att2 : Nat → Nat → ARes P) (R : Nat) :
    List Item → Nat → List (Option String)
  | [], _ => []
  | it :: rest, i =>
      (if (firstOk (att2 i) R).isSome then [it.permalink] else []) ++
        claimedIds att2 R rest (i + 1)

/-- The identifier sequence the code actually reports: the chunk order
restricted to the items whose first successful attempt produced at
least one row (worker line 140 guards the `data` post with
`companyRounds.length > 0`). -/
def amendedIds {P : Type} (att2 : Nat → Nat → ARes P) (R : Nat) :
    List Item → Nat → List (Option String)
  | [], _ => []
  | it :: rest, i =>
      (match firstOk (att2 i) R with
       | some rs => if rs.isEmpty then [] else [it.permalink]
       | none => []) ++
        amendedIds att2 R rest (i + 1)

/-- When no pause fault occurs, the chunk loop's reported identifiers
are exactly the non-empty-payload successes in chunk order. -/
theorem processChunk_reportedIds {P : Type} (sc : WScenario P)
    (R d pauseMs : Nat) (hpause : ∀ j, sc.pauseFault j = none) :
    ∀ (items : List Item) (i : Nat),
      reportedIds (processChunk sc R d pauseMs items i).1 =
        amendedIds sc.att R items i := by
  intro items
  induction items with
  | nil => intro i; rfl
  | cons it rest ih =>
    intro i
    have hitem : reportedIds (processItem it (sc.att i) R d).1 =
        (match firstOk (sc.att i) R with
         | some rs => if rs.isEmpty then [] else [it.permalink]
         | none => []) := by
      have := (retryGo_firstOk it (sc.att i) d R 0).2.2
      exact this
    cases rest with
    | nil =>
      simp only [processChunk, amendedIds]
      rw [hitem]
      simp [amendedIds]
    | cons x xs =>
      have hstep : processChunk sc R d pauseMs (it :: x :: xs) i =
          ((processItem it (sc.att i) R d).1 ++
             WEvent.waitedPause pauseMs ::
               (processChunk sc R d pauseMs (x :: xs) (i + 1)).1,
           (processChunk sc R d pauseMs (x :: xs) (i + 1)).2) := by
        simp only [processChunk, hpause]
      rw [hstep]
      show reportedIds ((processItem it (sc.att i) R d).1 ++
          WEvent.waitedPause pauseMs ::
            (processChunk sc R d pauseMs (x :: xs) (i + 1)).1) = _
      rw [List.append_cons, reportedIds_append, reportedIds_append, hitem, ih (i + 1)]
      rw [show reportedIds [WEvent.waitedPause pauseMs] = ([] : List (Option String)) from rfl,
        List.append_nil]
      rfl

/-- A concrete scenario in which every item succeeds at once but the
extraction yields zero rows. -/
def wscEmptySuccess : WScenario String where
  cookies := .ok []
  browserLaunch := .ok ()
  att := fun _ _ => .ok []
  pauseFault := fun _ => none

/-- **C5 (counterexample).** One item, succeeding on its first attempt
with an empty rows list: the unit reports nothing, while the claim's
"chunk order restricted to the items that succeeded" contains the item.
The claimed equality is false at this input. -/
theorem success_ids_claim_counterexample :
    (processItem ⟨some "acme", some "Acme"⟩ (wscEmptySuccess.att 0) 0 3).2.1 = true
  ∧ reportedIds (processChunk wscEmptySuccess 0 3 5 [⟨some "acme", some "Acme"⟩] 0).1 = []
  ∧ claimedIds wscEmptySuccess.att 0 [⟨some "acme", some "Acme"⟩] 0 = [some "acme"]
  ∧ reportedIds (processChunk wscEmptySuccess 0 3 5 [⟨some "acme", some "Acme"⟩] 0).1 ≠
      claimedIds wscEmptySuccess.att 0 [⟨some "acme", some "Acme"⟩] 0 := by
  refine ⟨rfl, rfl, rfl, ?_⟩
  decide

/-- **C5 (amended).** Within one execution unit items are processed
strictly sequentially in chunk order, and the sequence of item
identifiers for which the unit reports success equals the unit's chunk
order restricted to the items that succeeded *with at least one result
row* (an item succeeding with an empty extraction is silently
unreported). -/
theorem success_ids_in_chunk_order {P : Type} (sc : WScenario P)
    (items : List Item) (R d pauseMs i : Nat)
    (hpause : ∀ j, sc.pauseFault j = none) :
    reportedIds (processChunk sc R d pauseMs items i).1 =
      amendedIds sc.att R items i :=
  processChunk_reportedIds sc R d pauseMs hpause items i

/-- A concrete mixed scenario: item 0 succeeds with one row, item 1
fails once then succeeds with zero rows, item 2 always fails. -/
def wscMixed : WScenario String where
  cookies := .ok []
  browserLaunch := .ok ()
  att := fun i k =>
    match i, k with
    | 0, _ => .ok ["Seed Round"]
    | 1, 0 => .fail "timeout"
    | 1, _ => .ok []
    | _, _ => .fail "page down"
  pauseFault := fun _ => none

theorem success_ids_in_chunk_order_witness :
    reportedIds (processChunk wscMixed 1 3 5
        [⟨some "a", some "A"⟩, ⟨some "b", none⟩, ⟨some "c", none⟩] 0).1 =
      amendedIds wscMixed.att 1
        [⟨some "a", some "A"⟩, ⟨some "b", none⟩, ⟨some "c", none⟩] 0
  ∧ amendedIds wscMixed.att 1
      [⟨some "a", some "A"⟩, ⟨some "b", none⟩, ⟨some "c", none⟩] 0 = [some "a"] :=
  ⟨success_ids_in_chunk_order wscMixed
      [⟨some "a", some "A"⟩, ⟨some "b", none⟩, ⟨some "c", none⟩] 1 3 5 0
      (fun _ => rfl),
    by decide⟩

/-- **C6 (counterexample).** An item whose first processing attempt
succeeds but extracts zero rows: the unit emits no `data` message at
all, refuting "exactly one `data` message for every successful item". -/
theorem data_message_claim_counterexample :
    (processItem ⟨some "acme", some "Acme"⟩
        (fun _ => ARes.ok ([] : List String)) 0 3).2.1 = true
  ∧ dataPayloads (processItem ⟨some "acme", some "Acme"⟩
        (fun _ => ARes.ok ([] : List String)) 0 3).1 = []
  ∧ (dataPayloads (processItem ⟨some "acme", some "Acme"⟩
        (fun _ => ARes.ok ([] : List String)) 0 3).1).length ≠ 1 := by
  refine ⟨rfl, rfl, ?_⟩
  decide

/-- **C6 (amended).** For every item whose processing succeeds, the
execution unit emits exactly one `data` message carrying that item's
tagged rows *provided the extraction produced at least one row* (and no
message otherwise), and it emits it during that item's own processing
segment, before any event of the next item — results are never batched
across items. -/
theorem one_data_message_before_next_item {P : Type} (it : Item)
    (att : Nat → ARes P) (R d : Nat) (rs : List P)
    (h : firstOk att R = some rs) :
    dataPayloads (processItem it att R d).1 =
      (if rs.isEmpty then [] else [tagRounds it rs])
  ∧ (processItem it att R d).2.1 = true
  ∧ ∀ (sc : WScenario P) (rest : List Item) (i pauseMs : Nat),
      sc.att i = att → sc.pauseFault i = none → rest ≠ [] →
      (processChunk sc R d pauseMs (it :: rest) i).1 =
        (processItem it att R d).1 ++
          .waitedPause pauseMs :: (processChunk sc R d pauseMs rest (i + 1)).1 := by
  have hchar := retryGo_firstOk it att d R 0
  refine ⟨?_, ?_, ?_⟩
  · have := hchar.2.1
    rw [show firstOkFrom att 0 R = firstOk att R from rfl, h] at this
    exact this
  · have := hchar.1
    rw [show firstOkFrom att 0 R = firstOk att R from rfl, h] at this
    exact this
  · intro sc rest i pauseMs hatt hpause hne
    cases rest with
    | nil => exact absurd rfl hne
    | cons x xs =>
      simp only [processChunk, hpause, hatt]

/-- A concrete one-row success used to instantiate the amended C6. -/
def attOneRow : Nat → ARes String := fun _ => .ok ["Series A"]

/-- A concrete scenario whose item 0 behaves like `attOneRow`. -/
def wscOneRow : WScenario String where
  cookies := .ok []
  browserLaunch := .ok ()
  att := fun _ _ => .ok ["Series A"]
  pauseFault := fun _ => none

/-! ## Worker pool manager (financial_scraper_module.js lines 13–159)

The manager's view of one launched unit is the ordered list of messages
it receives from it plus the unit's terminal signal.  Each `data`
message carries the outcome of the manager's `appendFile` call for it
(the only manager-side effect that can fail mid-run).  The trace below
is the canonical linearization unit-by-unit; across units the real
arrival order is unconstrained, and no claim below depends on it. -/

/-- A message as received (and acted upon) by the manager. -/
inductive MMsg (P : Type) where
  | mdata (payload : List (TaggedRound P)) (appendOk : Bool)
  | merror (permalink : Option String) (name : Option String) (reason : String)
  | mdone
  deriving DecidableEq, Repr

/-- How a unit terminates: an `error` lifecycle event (crash), or an
`exit` event with a code. -/
inductive UnitTerm where
  | crashed (reason : String)
  | exited (code : Nat)
  deriving DecidableEq, Repr

/-- One launched unit's behaviour as the manager observes it. -/
structure UnitRun (P : Type) where
  msgs : List (MMsg P)
  term : UnitTerm

/-- The environment of one manager run: the companies file (read and
parsed, or failing), the output-file initialization write, the worker
count and the behaviour of the unit launched at each chunk index. -/
structure MScenario (P : Type) where
  companies : Except String (List Item)
  initWrite : Except String Unit
  numberOfWorkers : Nat
  runs : Nat → UnitRun P

/-- Observable manager events, in order. -/
inductive MEvent (P : Type) where
  | truncated
  | launched (i : Nat)
  | appended (payload : List (TaggedRound P))
  | appendFailed
  | unitErrorLogged
  | unitDone
  | unitCrashed
  | unitExited (code : Nat)
  deriving DecidableEq, Repr

/-- The manager-side events produced while one unit's messages are
handled (lines 79–127): a successful append, a failed append (logged,
`overallSuccess = false`), a logged `error` (`overallSuccess = false`),
`done`, then the terminal lifecycle signal. -/
def unitTrace {P : Type} (u : UnitRun P) : List (MEvent P) :=
  u.msgs.map (fun m =>
    match m with
    | .mdata p true => .appended p
    | .mdata _ false => .appendFailed
    | .merror _ _ _ => .unitErrorLogged
    | .mdone => .unitDone) ++
  [match u.term with
   | .crashed _ => .unitCrashed
   | .exited c => .unitExited c]

/-- Whether a unit leaves `overallSuccess` untouched: every append
succeeded, no `error` message, no crash, exit code zero. -/
def unitClean {P : Type} (u : UnitRun P) : Bool :=
  u.msgs.all (fun m =>
    match m with
    | .mdata _ ok => ok
    | .merror _ _ _ => false
    | .mdone => true) &&
  (match u.term with
   | .crashed _ => false
   | .exited c => c == 0)

/-- The payload batches a unit got durably appended to the sink. -/
def unitAppends {P : Type} (u : UnitRun P) : List (List (TaggedRound P)) :=
  u.msgs.filterMap (fun m =>
    match m with
    | .mdata p ok => if ok then some p else none
    | _ => none)

/-- `scrapeFinancialDetails`: load companies (early `return false` on
failure), truncate the output file (early `return false` on failure),
chunk, launch one worker per non-empty chunk, `Promise.allSettled` over
every launched unit, and return the aggregated `overallSuccess`. -/
def scrapeFinancialDetails {P : Type} (ms : MScenario P) : Bool × List (MEvent P) :=
  match ms.companies with
  | .error _ => (false, [])
  | .ok items =>
      match ms.initWrite with
      | .error _ => (false, [])
      | .ok _ =>
          let idx := launchedIndices items ms.numberOfWorkers
          (idx.all (fun i => unitClean (ms.runs i)),
           .truncated ::
             (idx.map .launched ++ (idx.map (fun i => unitTrace (ms.runs i))).flatten))

/-- The payload batches present in the sink after a manager trace. -/
def appendedPayloads {P : Type} (tr : List (MEvent P)) : List (List (TaggedRound P)) :=
  tr.filterMap (fun e =>
    match e with
    | .appended p => some p
    | _ => none)

/-- No `error` message from this unit. -/
def NoErrorMsg {P : Type} (u : UnitRun P) : Prop :=
  ∀ pl nm r, MMsg.merror pl nm r ∉ u.msgs

/-- Every sink append for this unit succeeded. -/
def NoAppendFailure {P : Type} (u : UnitRun P) : Prop :=
  ∀ p, MMsg.mdata p false ∉ u.msgs

/-- The unit did not crash. -/
def NotCrashed {P : Type} (u : UnitRun P) : Prop :=
  ∀ r, u.term ≠ .crashed r

/-- The unit's exit code, if it exited, was zero. -/
def ExitedZero {P : Type} (u : UnitRun P) : Prop :=
  ∀ c, u.term = .exited c → c = 0

theorem unitClean_iff {P : Type} (u : UnitRun P) :
    unitClean u = true ↔
      NoErrorMsg u ∧ NoAppendFailure u ∧ NotCrashed u ∧ ExitedZero u := by
  unfold unitClean
  rw [Bool.and_eq_true, List.all_eq_true]
  constructor
  · rintro ⟨hmsgs, hterm⟩
    refine ⟨?_, ?_, ?_, ?_⟩
    · intro pl nm r hmem
      have := hmsgs _ hmem
      simp at this
    · intro p hmem
      have := hmsgs _ hmem
      simp at this
    · intro r hcr
      rw [hcr] at hterm
      simp at hterm
    · intro c hex
      rw [hex] at hterm
      simpa using hterm
  · rintro ⟨hne, hna, hnc, hez⟩
    constructor
    · intro m hm
      cases m with
      | mdata p ok =>
        cases ok with
        | true => rfl
        | false => exact absurd hm (hna p)
      | merror pl nm r => exact absurd hm (hne pl nm r)
      | mdone => rfl
    · cases hterm : u.term with
      | crashed r => exact absurd hterm (hnc r)
      | exited c =>
        have := hez c hterm
        simp [this]

theorem appendedPayloads_append {P : Type} (xs ys : List (MEvent P)) :
    appendedPayloads (xs ++ ys) = appendedPayloads xs ++ appendedPayloads ys :=
  List.filterMap_append xs ys _

theorem appendedPayloads_unitTrace {P : Type} (u : UnitRun P) :
    appendedPayloads (unitTrace u) = unitAppends u := by
  unfold unitTrace unitAppends appendedPayloads
  rw [List.filterMap_append, List.filterMap_map]
  have hterm : ∀ t : UnitTerm, List.filterMap
      (fun e : MEvent P => match e with | MEvent.appended p => some p | _ => none)
      [match t with
       | .crashed _ => MEvent.unitCrashed
       | .exited c => MEvent.unitExited c] = [] := by
    intro t
    cases t <;> rfl
  rw [hterm, List.append_nil]
  apply List.filterMap_congr
  intro m _
  cases m with
  | mdata p ok => cases ok <;> rfl
  | merror pl nm r => rfl
  | mdone => rfl

theorem appendedPayloads_launched {P : Type} (idx : List Nat) :
    appendedPayloads (idx.map (MEvent.launched (P := P))) = [] := by
  induction idx with
  | nil => rfl
  | cons i rest ih =>
    simp only [List.map_cons]
    rw [show (MEvent.launched i :: List.map (MEvent.launched (P := P)) rest) =
      [MEvent.launched (P := P) i] ++ List.map (MEvent.launched (P := P)) rest from rfl]
    rw [appendedPayloads_append, ih]
    rfl

/-- The sink content of a completed run is every launched unit's
successful appends, unit by unit — independent of any unit's errors,
crash or exit code. -/
theorem manager_sink_content {P : Type} (ms : MScenario P) (items : List Item)
    (h1 : ms.companies = .ok items) (h2 : ms.initWrite = .ok ()) :
    appendedPayloads (scrapeFinancialDetails ms).2 =
      ((launchedIndices items ms.numberOfWorkers).map
        (fun i => unitAppends (ms.runs i))).flatten := by
  simp only [scrapeFinancialDetails, h1, h2]
  rw [show (MEvent.truncated ::
      ((launchedIndices items ms.numberOfWorkers).map MEvent.launched ++
        ((launchedIndices items ms.numberOfWorkers).map
          (fun i => unitTrace (ms.runs i))).flatten)) =
    [MEvent.truncated (P := P)] ++
      (launchedIndices items ms.numberOfWorkers).map MEvent.launched ++
        ((launchedIndices items ms.numberOfWorkers).map
          (fun i => unitTrace (ms.runs i))).flatten from by simp]
  rw [appendedPayloads_append, appendedPayloads_append, appendedPayloads_launched]
  have h0 : appendedPayloads (P := P) [MEvent.truncated] = [] := rfl
  rw [h0, List.nil_append, List.nil_append]
  induction launchedIndices items ms.numberOfWorkers with
  | nil => rfl
  | cons i rest ih =>
    simp only [List.map_cons, List.flatten_cons]
    rw [appendedPayloads_append, appendedPayloads_unitTrace, ih]

/-- Overall success aggregation over the launched units. -/
theorem manager_success_iff {P : Type} (ms : MScenario P) (items : List Item)
    (h1 : ms.companies = .ok items) (h2 : ms.initWrite = .ok ()) :
    ((scrapeFinancialDetails ms).1 = true ↔
      ∀ i ∈ launchedIndices items ms.numberOfWorkers,
        NoErrorMsg (ms.runs i) ∧ NoAppendFailure (ms.runs i) ∧
        NotCrashed (ms.runs i) ∧ ExitedZero (ms.runs i)) := by
  simp only [scrapeFinancialDetails, h1, h2]
  rw [List.all_eq_true]
  constructor
  · intro h i hi
    exact (unitClean_iff _).mp (h i hi)
  · intro h i hi
    exact (unitClean_iff _).mpr (h i hi)

theorem one_data_message_before_next_item_witness :
    dataPayloads (processItem ⟨some "acme", some "Acme"⟩ attOneRow 1 3).1 =
      (if (["Series A"] : List String).isEmpty then []
       else [tagRounds ⟨some "acme", some "Acme"⟩ ["Series A"]])
  ∧ (processItem ⟨some "acme", some "Acme"⟩ attOneRow 1 3).2.1 = true
  ∧ (processChunk wscOneRow 1 3 5
        [⟨some "acme", some "Acme"⟩, ⟨some "beta", none⟩] 0).1 =
      (processItem ⟨some "acme", some "Acme"⟩ attOneRow 1 3).1 ++
        .waitedPause 5 ::
          (processChunk wscOneRow 1 3 5 [⟨some "beta", none⟩] 1).1 := by
  have h := one_data_message_before_next_item
    ⟨some "acme", some "Acme"⟩ attOneRow 1 3 ["Series A"] rfl
  exact ⟨h.1, h.2.1,
    h.2.2 wscOneRow [⟨some "beta", none⟩] 0 5 rfl rfl (by decide)⟩

/-! ## Claim C1: settlement and final status -/

/-- **C1.** Once setup succeeded, the manager awaits every launched
unit (the aggregation below consumes every launched unit's full run),
and it returns `true` iff no unit crashed, none exited nonzero, none
sent an `error` message and no sink append failed; moreover the sink
holds every launched unit's successful appends — one unit's failure
never prevents a sibling's data from being appended. -/
theorem overall_success_iff_all_units_clean {P : Type} (ms : MScenario P)
    (items : List Item)
    (h1 : ms.companies = .ok items) (h2 : ms.initWrite = .ok ()) :
    ((scrapeFinancialDetails ms).1 = true ↔
       ∀ i ∈ launchedIndices items ms.numberOfWorkers,
         NoErrorMsg (ms.runs i) ∧ NoAppendFailure (ms.runs i) ∧
         NotCrashed (ms.runs i) ∧ ExitedZero (ms.runs i))
  ∧ appendedPayloads (scrapeFinancialDetails ms).2 =
      ((launchedIndices items ms.numberOfWorkers).map
        (fun i => unitAppends (ms.runs i))).flatten :=
  ⟨manager_success_iff ms items h1 h2, manager_sink_content ms items h1 h2⟩

/-- A clean unit: one successful append, `done`, exit 0. -/
def mrunClean : UnitRun Nat :=
  ⟨[.mdata [⟨some "a", some "A", 1⟩] true, .mdone], .exited 0⟩

/-- A unit that reported an item error before finishing. -/
def mrunError : UnitRun Nat :=
  ⟨[.merror (some "b") none "Max retries reached: timeout", .mdone], .exited 0⟩

/-- Two items, two workers: unit 0 clean, unit 1 reports an error. -/
def mscMixed : MScenario Nat where
  companies := .ok [⟨some "a", some "A"⟩, ⟨some "b", none⟩]
  initWrite := .ok ()
  numberOfWorkers := 2
  runs := fun i => if i = 0 then mrunClean else mrunError

theorem overall_success_iff_all_units_clean_witness :
    (((scrapeFinancialDetails mscMixed).1 = true ↔
       ∀ i ∈ launchedIndices ([⟨some "a", some "A"⟩, ⟨some "b", none⟩] : List Item)
           mscMixed.numberOfWorkers,
         NoErrorMsg (mscMixed.runs i) ∧ NoAppendFailure (mscMixed.runs i) ∧
         NotCrashed (mscMixed.runs i) ∧ ExitedZero (mscMixed.runs i))
  ∧ appendedPayloads (scrapeFinancialDetails mscMixed).2 =
      ((launchedIndices ([⟨some "a", some "A"⟩, ⟨some "b", none⟩] : List Item)
          mscMixed.numberOfWorkers).map
        (fun i => unitAppends (mscMixed.runs i))).flatten)
  ∧ (scrapeFinancialDetails mscMixed).1 = false
  ∧ appendedPayloads (scrapeFinancialDetails mscMixed).2 =
      [[⟨some "a", some "A", 1⟩]] :=
  ⟨overall_success_iff_all_units_clean mscMixed
      [⟨some "a", some "A"⟩, ⟨some "b", none⟩] rfl rfl,
    by decide, by decide⟩

/-! ## Claim C7: cookie failure is fatal to its unit only -/

/-- **C7.** A unit whose cookies cannot be loaded or parsed as an array
posts one `error` message and terminates before touching any item of
its chunk (no browser, no page, no `data`, no `done`); at the manager,
such a unit only flips the overall flag — every launched unit's data is
still appended and the run still settles. -/
theorem cookie_failure_fatal_unit_only {P : Type} (sc : WScenario P)
    (items : List Item) (R d pauseMs : Nat) (e : String)
    (h : sc.cookies = .error e) :
    runWorker sc items R d pauseMs =
      [.sent (.error none none ("Failed to load cookies: " ++ e))]
  ∧ ∀ (ms : MScenario P) (items' : List Item) (i₀ : Nat),
      ms.companies = .ok items' → ms.initWrite = .ok () →
      (ms.runs i₀).msgs = [.merror none none ("Failed to load cookies: " ++ e)] →
      (appendedPayloads (scrapeFinancialDetails ms).2 =
          ((launchedIndices items' ms.numberOfWorkers).map
            (fun i => unitAppends (ms.runs i))).flatten
        ∧ (i₀ ∈ launchedIndices items' ms.numberOfWorkers →
            (scrapeFinancialDetails ms).1 = false)) := by
  constructor
  · simp [runWorker, h]
  · intro ms items' i₀ h1 h2 hmsgs
    constructor
    · exact manager_sink_content ms items' h1 h2
    · intro hi
      have hclean : unitClean (ms.runs i₀) = false := by
        simp [unitClean, hmsgs]
      simp only [scrapeFinancialDetails, h1, h2]
      exact List.all_eq_false.mpr ⟨i₀, hi, by simp [hclean]⟩

/-- A worker scenario whose cookie file is unreadable. -/
def wscNoCookies : WScenario Nat where
  cookies := .error "ENOENT"
  browserLaunch := .ok ()
  att := fun _ _ => .ok [1]
  pauseFault := fun _ => none

/-- Two items, two workers: unit 0 clean, unit 1 failed on cookies. -/
def mscCookieFail : MScenario Nat where
  companies := .ok [⟨some "a", some "A"⟩, ⟨some "b", none⟩]
  initWrite := .ok ()
  numberOfWorkers := 2
  runs := fun i =>
    if i = 0 then mrunClean
    else ⟨[.merror none none "Failed to load cookies: ENOENT"], .exited 0⟩

theorem cookie_failure_fatal_unit_only_witness :
    runWorker wscNoCookies [⟨some "a", some "A"⟩] 1 3 5 =
      [.sent (.error none none "Failed to load cookies: ENOENT")]
  ∧ (appendedPayloads (scrapeFinancialDetails mscCookieFail).2 =
        ((launchedIndices ([⟨some "a", some "A"⟩, ⟨some "b", none⟩] : List Item)
            mscCookieFail.numberOfWorkers).map
          (fun i => unitAppends (mscCookieFail.runs i))).flatten
    ∧ (1 ∈ launchedIndices ([⟨some "a", some "A"⟩, ⟨some "b", none⟩] : List Item)
          mscCookieFail.numberOfWorkers →
        (scrapeFinancialDetails mscCookieFail).1 = false)) := by
  have h := cookie_failure_fatal_unit_only wscNoCookies
    [⟨some "a", some "A"⟩] 1 3 5 "ENOENT" rfl
  exact ⟨h.1, h.2 mscCookieFail [⟨some "a", some "A"⟩, ⟨some "b", none⟩] 1
    rfl rfl rfl⟩

/-! ## Claim C8: resource release on every exit path -/

/-- **C8.** On every worker exit path on which the browser was
launched — chunk finished normally or an unrecoverable mid-chunk
fault — the trace ends by closing the browser and posting `done`; and
every failed attempt that opened a page closes it before the retry
delay, respectively before the final exhaustion `error` is posted. -/
theorem browser_closed_and_done_on_every_exit {P : Type} (sc : WScenario P)
    (items : List Item) (R d pauseMs : Nat)
    (h : WEvent.browserLaunched (P := P) ∈ runWorker sc items R d pauseMs) :
    (∃ mid, runWorker sc items R d pauseMs =
        .browserLaunched :: mid ++ [.browserClosed, .sent .done])
  ∧ (∀ (it : Item) (r : String) (d' : Nat),
      attemptEvents (P := P) it (.fail r) false d' =
        [.pageOpened, .pageClosed, .waitedRetry d']
    ∧ attemptEvents (P := P) it (.fail r) true d' =
        [.pageOpened, .pageClosed, .sent (mkExhaustError it r)]) := by
  constructor
  · cases hc : sc.cookies with
    | error e => simp [runWorker, hc] at h
    | ok cs =>
      cases hb : sc.browserLaunch with
      | error e => simp [runWorker, hc, hb] at h
      | ok u =>
        cases hcrit : (processChunk sc R d pauseMs items 0).2 with
        | some e =>
          refine ⟨(processChunk sc R d pauseMs items 0).1 ++
            [.sent (.error none none ("Critical worker error: " ++ e))], ?_⟩
          simp [runWorker, hc, hb, hcrit]
        | none =>
          refine ⟨(processChunk sc R d pauseMs items 0).1, ?_⟩
          simp [runWorker, hc, hb, hcrit]
  · intro it r d'
    exact ⟨rfl, rfl⟩

/-- A fully healthy one-item scenario. -/
def wscHappy : WScenario Nat where
  cookies := .ok []
  browserLaunch := .ok ()
  att := fun _ _ => .ok [7]
  pauseFault := fun _ => none

theorem browser_closed_and_done_on_every_exit_witness :
    (∃ mid, runWorker wscHappy [⟨some "a", none⟩] 0 1 2 =
        .browserLaunched :: mid ++ [.browserClosed, .sent .done])
  ∧ (∀ (it : Item) (r : String) (d' : Nat),
      attemptEvents (P := Nat) it (.fail r) false d' =
        [.pageOpened, .pageClosed, .waitedRetry d']
    ∧ attemptEvents (P := Nat) it (.fail r) true d' =
        [.pageOpened, .pageClosed, .sent (mkExhaustError it r)]) :=
  browser_closed_and_done_on_every_exit wscHappy [⟨some "a", none⟩] 0 1 2
    (by decide)

/-! ## Claim C10: output truncation before launch -/

/-- **C10.** Before any unit is launched the manager truncates the
output file (the `truncated` event heads the trace, ahead of every
`launched` event); and when that initialization write fails the run
returns `false` with no unit launched at all. -/
theorem output_truncated_first_and_init_failure_aborts {P : Type}
    (ms : MScenario P) :
    (∀ e, ms.initWrite = .error e → scrapeFinancialDetails ms = (false, []))
  ∧ (∀ items, ms.companies = .ok items → ms.initWrite = .ok () →
      (scrapeFinancialDetails ms).2 =
        .truncated ::
          ((launchedIndices items ms.numberOfWorkers).map .launched ++
            ((launchedIndices items ms.numberOfWorkers).map
              (fun i => unitTrace (ms.runs i))).flatten)) := by
  constructor
  · intro e he
    cases hc : ms.companies with
    | error e' => simp [scrapeFinancialDetails, hc]
    | ok items => simp [scrapeFinancialDetails, hc, he]
  · intro items h1 h2
    simp [scrapeFinancialDetails, h1, h2]

/-- A run whose output file cannot be initialized. -/
def mscInitFail : MScenario Nat where
  companies := .ok [⟨some "a", some "A"⟩]
  initWrite := .error "EACCES"
  numberOfWorkers := 1
  runs := fun _ => mrunClean

theorem output_truncated_first_and_init_failure_aborts_witness :
    scrapeFinancialDetails mscInitFail = (false, [])
  ∧ (scrapeFinancialDetails mscMixed).2 =
      .truncated ::
        ((launchedIndices ([⟨some "a", some "A"⟩, ⟨some "b", none⟩] : List Item)
            mscMixed.numberOfWorkers).map .launched ++
          ((launchedIndices ([⟨some "a", some "A"⟩, ⟨some "b", none⟩] : List Item)
              mscMixed.numberOfWorkers).map
            (fun i => unitTrace (mscMixed.runs i))).flatten) :=
  ⟨(output_truncated_first_and_init_failure_aborts mscInitFail).1 "EACCES" rfl,
    (output_truncated_first_and_init_failure_aborts mscMixed).2
      [⟨some "a", some "A"⟩, ⟨some "b", none⟩] rfl rfl⟩

/-! ## Claim C9: the downstream JSONL reader -/

/-- `JSON.parse`-or-`null` over a list of optional values: keep the
successfully parsed ones (merge module lines 18–26). -/
def dropNulls {J : Type} : List (Option J) → List J
  | [] => []
  | none :: rest => dropNulls rest
  | some x :: rest => x :: dropNulls rest

/-- JS strings are embedded as character lists so every string
operation of `parseJsonl` is structurally computable. -/
abbrev JStr := List Char

/-- A whitespace character in the sense of `String.prototype.trim`. -/
def isWs (c : Char) : Bool :=
  c == ' ' || c == '\t' || c == '\n' || c == '\r'

/-- `s.trim()`: strip whitespace from both ends. -/
def trimJs (s : JStr) : JStr :=
  ((s.dropWhile isWs).reverse.dropWhile isWs).reverse

/-- `s.split('\n')`: split into lines at every newline; the empty
string yields the single empty line, exactly as in JS. -/
def splitLines : JStr → List JStr
  | [] => [[]]
  | c :: rest =>
      if c == '\n' then [] :: splitLines rest
      else
        match splitLines rest with
        | [] => [[c]]
        | l :: ls => (c :: l) :: ls

/-- The candidate lines of a JSONL file: trim the whole content, split
on newlines, and drop whitespace-only lines (merge module lines
14–17). -/
def jsonlLines (content : JStr) : List JStr :=
  (splitLines (trimJs content)).filter (fun l => trimJs l != [])

/-- `parseJsonl` (merge module lines 10–27), parameterized by the
external `JSON.parse` modelled as `parse : JStr → Option J`: the
falsy-input guard, the line pipeline, parse-or-null, drop nulls. -/
def parseJsonl {J : Type} (parse : JStr → Option J) (content : JStr) : List J :=
  if content = [] then []
  else dropNulls ((jsonlLines content).map parse)

theorem dropNulls_map_eq_filterMap {J α : Type} (f : α → Option J) (l : List α) :
    dropNulls (l.map f) = l.filterMap f := by
  induction l with
  | nil => rfl
  | cons x xs ih =>
    cases hf : f x <;> simp [dropNulls, List.filterMap_cons, hf, ih]

/-- **C9.** For every input string (and every behaviour of the external
JSON parser), `parseJsonl` returns exactly the parsed values of the
well-formed non-empty lines, in file order; every line the parser
rejects — a malformed trailing partial line included — contributes
nothing and aborts nothing. -/
theorem parseJsonl_keeps_wellformed_lines_in_order {J : Type}
    (parse : JStr → Option J) (content : JStr) :
    parseJsonl parse content = (jsonlLines content).filterMap parse := by
  unfold parseJsonl
  by_cases hc : content = []
  · subst hc
    rw [if_pos rfl]
    rfl
  · rw [if_neg hc]
    exact dropNulls_map_eq_filterMap parse (jsonlLines content)

end CBScraper
